import Mathlib

/-!
Verification of the commit-message validation engine of the `commitizen`
check command: a shallow embedding of `commitizen/cz/base.py`
(`BaseCommitizen.validate_commit_message`, `format_exception_message`) and
`commitizen/commands/check.py` (`Check._valid_command_argument`,
`Check.__call__`, `Check._get_commits`, `Check._filter_comments`).

Python strings are modelled as Lean `String` (a sequence of characters,
`String.data`); the regular-expression engine (`re.match`), which is
external to the repository, is abstracted as the pattern being either
`none` (Python `None`) or a boolean matcher `String → Bool` standing for
`bool(re.match(pattern, msg))`.  Python `int` is modelled as `Int`
(truthiness `≠ 0`), Python exceptions as `Except` over an error type.
-/

namespace Commitizen

/-- Characterwise model of Python `msg.split("\n")`: split a character list
at every newline.  The result is always non-empty, and `"".split("\n")`
is `[""]`, exactly as in Python. -/
def splitOnNewline : List Char → List (List Char)
  | [] => [[]]
  | c :: rest =>
    match splitOnNewline rest with
    | [] => [[]]
    | l :: ls => if c = '\n' then [] :: l :: ls else (c :: l) :: ls

/-- Model of Python `"\n".join(lines)` on character lists. -/
def joinNewline : List (List Char) → List Char
  | [] => []
  | [l] => l
  | l :: l' :: ls => l ++ '\n' :: joinNewline (l' :: ls)

/-- Model of Python `s.strip()`: drop whitespace from both ends. -/
def pyStrip (s : List Char) : List Char :=
  ((s.dropWhile Char.isWhitespace).reverse.dropWhile Char.isWhitespace).reverse

/-- Model of Python `msg.partition("\n")[0]`: the text before the first
newline (the whole string when there is none). -/
def firstLine (s : String) : String :=
  ⟨s.data.takeWhile (fun c => c ≠ '\n')⟩

/-- Model of Python `msg.startswith(pre)` on strings. -/
def startsWith (pre msg : String) : Bool :=
  pre.data.isPrefixOf msg.data

/-- Model of Python `needle in hay` (substring containment). -/
def containsSubstr (needle hay : List Char) : Bool :=
  decide (needle <:+: hay)

/-- `BaseCommitizen.validate_commit_message` from `commitizen/cz/base.py`:

```python
if not commit_msg:
    return allow_abort, []
if pattern is None:
    return True, []
if any(map(commit_msg.startswith, allowed_prefixes)):
    return True, []
if max_msg_length:
    msg_len = len(commit_msg.partition("\n")[0].strip())
    if msg_len > max_msg_length:
        return False, []
return bool(re.match(pattern, commit_msg)), []
``` -/
def validate_commit_message (commit_msg : String) (pattern : Option (String → Bool))
    (allow_abort : Bool) (allowed_prefixes : List String) (max_msg_length : Int) :
    Bool × List String :=
  if commit_msg.data = [] then (allow_abort, [])
  else
    match pattern with
    | none => (true, [])
    | some p =>
      if allowed_prefixes.any (fun pre => startsWith pre commit_msg) then (true, [])
      else if max_msg_length ≠ 0 then
        let msg_len : Int := (pyStrip (firstLine commit_msg).data).length
        if msg_len > max_msg_length then (false, [])
        else (p commit_msg, [])
      else (p commit_msg, [])

/-- The verbose-diff delimiter sentinel of `Check._filter_comments`. -/
def sentinel : List Char :=
  "# ------------------------ >8 ------------------------".data

/-- The line loop of `Check._filter_comments`: break at the first line
containing the sentinel, drop lines starting with `#`, keep the rest. -/
def filterLines : List (List Char) → List (List Char)
  | [] => []
  | l :: ls =>
    if containsSubstr sentinel l then []
    else if l.head? = some '#' then filterLines ls
    else l :: filterLines ls

/-- `Check._filter_comments` from `commitizen/commands/check.py`:

```python
lines = []
for line in msg.split("\n"):
    if "# ------------------------ >8 ------------------------" in line:
        break
    if not line.startswith("#"):
        lines.append(line)
return "\n".join(lines)
``` -/
def filter_comments (msg : String) : String :=
  ⟨joinNewline (filterLines (splitOnNewline msg.data))⟩

/-- The transform exactly as claim C5 words it: stop at the first line whose
content IS EXACTLY the sentinel, drop `#`-lines before it, rejoin.  The
source instead breaks at the first line CONTAINING the sentinel. -/
def filterCommentsClaimExact (msg : String) : String :=
  ⟨joinNewline
    (((splitOnNewline msg.data).takeWhile (fun l => l ≠ sentinel)).filter
      (fun l => l.head? ≠ some '#'))⟩

/-- The claim-C5 transform amended so that the stop condition is substring
containment of the sentinel, as the source has it. -/
def filterCommentsClaimContains (msg : String) : String :=
  ⟨joinNewline
    (((splitOnNewline msg.data).takeWhile (fun l => ¬containsSubstr sentinel l)).filter
      (fun l => l.head? ≠ some '#'))⟩

/-- The three domain errors of the check command
(`commitizen/exceptions.py`, consumed by `check.py`). -/
inductive CheckError where
  | invalidCommandArgument (msg : String)
  | noCommitsFound (msg : String)
  | invalidCommitMessage (msg : String)
  deriving DecidableEq, Repr

/-- Modelled from the spec: `commitizen/git.py` is not under `src/`; per
§3 of the spec, a CommitRecord carries a revision id (empty for synthetic
records), a title and the full message text. -/
structure GitCommit where
  rev : String
  title : String
  message : String
  deriving DecidableEq, Repr

/-- Model of a Python f-string interpolating an `Option String`
(`None` prints as `"None"`). -/
def pyShow : Option String → String
  | none => "None"
  | some s => s

/-- The error message of `Check._valid_command_argument`. -/
def argErrMsg : String :=
  "Only one of --rev-range, --message, and --commit-msg-file is permitted by check command! See 'cz check -h' for more information"

/-- The number of provided (non-`None`) exclusive arguments, as in
`sum(arg is not None for arg in (commit_msg_file, commit_msg, rev_range))`. -/
def numProvided (commit_msg_file commit_msg rev_range : Option String) : Nat :=
  [commit_msg_file, commit_msg, rev_range].countP (fun a => a.isSome)

/-- `Check._valid_command_argument` from `commitizen/commands/check.py`.
`isatty` models `sys.stdin.isatty()` and `stdin_read` the content
`sys.stdin.read()` would return; the result carries the possibly-updated
`self.commit_msg`:

```python
num_exclusive_args_provided = sum(
    arg is not None
    for arg in (self.commit_msg_file, self.commit_msg, self.rev_range)
)
if num_exclusive_args_provided == 0 and not sys.stdin.isatty():
    self.commit_msg = sys.stdin.read()
elif num_exclusive_args_provided != 1:
    raise InvalidCommandArgumentError(...)
``` -/
def valid_command_argument (commit_msg_file commit_msg rev_range : Option String)
    (isatty : Bool) (stdin_read : String) : Except CheckError (Option String) :=
  let num := numProvided commit_msg_file commit_msg rev_range
  if num = 0 ∧ isatty = false then Except.ok (some stdin_read)
  else if num ≠ 1 then Except.error (CheckError.invalidCommandArgument argErrMsg)
  else Except.ok commit_msg

/-- `Check._get_commits` from `commitizen/commands/check.py`.
`file_content` models what `open(self.commit_msg_file).read()` returns and
`git_log` what `git.get_commits(end=self.rev_range)` returns:

```python
msg = None
if self.commit_msg_file is not None:
    msg = <file content>
elif self.commit_msg is not None:
    msg = self.commit_msg
if msg is not None:
    msg = self._filter_comments(msg)
    return [git.GitCommit(rev="", title="", body=msg)]
return git.get_commits(end=self.rev_range)
``` -/
def get_commits (commit_msg_file : Option String) (file_content : String)
    (commit_msg : Option String) (git_log : List GitCommit) : List GitCommit :=
  match commit_msg_file with
  | some _ => [⟨"", "", filter_comments file_content⟩]
  | none =>
    match commit_msg with
    | some m => [⟨"", "", filter_comments m⟩]
    | none => git_log

/-- `BaseCommitizen.format_exception_message` from `commitizen/cz/base.py`;
`pattern_repr` models the f-string rendering of `self.schema_pattern`:

```python
displayed_msgs_content = "\n".join(
    [f'commit "{commit.rev}": "{commit.message}"'
     for commit, _ in ill_formated_commits])
return ("commit validation: failed!\n"
        "please enter a commit message in the commitizen format.\n"
        f"{displayed_msgs_content}\n"
        f"pattern: {self.schema_pattern}")
``` -/
def commitEntry (c : GitCommit) : String :=
  "commit \"" ++ c.rev ++ "\": \"" ++ c.message ++ "\""

def format_exception_message (ill_formated_commits : List (GitCommit × List String))
    (pattern_repr : String) : String :=
  ⟨"commit validation: failed!\nplease enter a commit message in the commitizen format.\n".data
    ++ joinNewline (ill_formated_commits.map (fun p => (commitEntry p.1).data))
    ++ "\npattern: ".data ++ pattern_repr.data⟩

/-- The body of `Check.__call__` from `commitizen/commands/check.py`, after
the commit sequence has been resolved; `Except.ok ()` models the
`out.success` path:

```python
if not commits:
    raise NoCommitsFoundError(f"No commit found with range: '{self.rev_range}'")
pattern = self.cz.schema_pattern()
ill_formated_commits = [
    (commit, check[1]) for commit in commits
    if not (check := self.cz.validate_commit_message(
        commit.message, pattern, allow_abort=..., allowed_prefixes=...,
        max_msg_length=...))[0]]
if ill_formated_commits:
    raise InvalidCommitMessageError(self.cz.format_exception_message(ill_formated_commits))
out.success("Commit validation: successful!")
``` -/
def check_call (rev_range : Option String) (commits : List GitCommit)
    (pattern : Option (String → Bool)) (allow_abort : Bool)
    (allowed_prefixes : List String) (max_msg_length : Int)
    (pattern_repr : String) : Except CheckError Unit :=
  if commits = [] then
    Except.error (CheckError.noCommitsFound
      ("No commit found with range: '" ++ pyShow rev_range ++ "'"))
  else
    let ill_formated_commits := commits.filterMap (fun commit =>
      let check := validate_commit_message commit.message pattern allow_abort
        allowed_prefixes max_msg_length
      if check.1 then none else some (commit, check.2))
    if ill_formated_commits ≠ [] then
      Except.error (CheckError.invalidCommitMessage
        (format_exception_message ill_formated_commits pattern_repr))
    else Except.ok ()

end Commitizen

namespace Commitizen

/-! ### Theorems about `validate_commit_message` -/

/-- Claim C1 (corrected), counterexample: with a null pattern the empty
message does NOT yield `(true, [])` — the emptiness check runs first and
returns `(allow_abort, [])`, here `(false, [])`. -/
theorem validate_null_pattern_cex :
    validate_commit_message "" none false [] 0 = (false, []) ∧
    validate_commit_message "" none false [] 0 ≠ (true, []) := by
  constructor
  · rfl
  · decide

/-- Claim C1 (amended): for every NON-EMPTY message and every allow_abort,
allowed_prefixes and max_message_length, a null pattern yields
`(true, [])`; the empty message instead yields `(allow_abort, [])`. -/
theorem validate_null_pattern (m : String) (a : Bool) (pres : List String)
    (mx : Int) (h : m.data ≠ []) :
    validate_commit_message m none a pres mx = (true, []) := by
  simp [validate_commit_message, h]

/-- Witness for `validate_null_pattern` at `m = "x"`. -/
theorem validate_null_pattern_witness :
    validate_commit_message "x" none false [] 0 = (true, []) :=
  validate_null_pattern "x" false [] 0 (by decide)

/-- Claim C2: a non-empty message starting with an allowed prefix is
exempted — `(true, [])` for every pattern, allow_abort and length limit. -/
theorem validate_allowed_prefix_exempt (m : String) (p : Option (String → Bool))
    (a : Bool) (pres : List String) (mx : Int) (hne : m.data ≠ [])
    (hpre : pres.any (fun pre => startsWith pre m) = true) :
    validate_commit_message m p a pres mx = (true, []) := by
  cases p with
  | none => simp [validate_commit_message, hne]
  | some p => simp [validate_commit_message, hne, hpre]

/-- Witness for `validate_allowed_prefix_exempt`: the first line of
`"Merge branch"` exceeds the limit 1 and the pattern rejects everything,
yet the `"Merge"` prefix wins. -/
theorem validate_allowed_prefix_exempt_witness :
    validate_commit_message "Merge branch" (some (fun _ => false)) false ["Merge"] 1
      = (true, []) :=
  validate_allowed_prefix_exempt "Merge branch" (some (fun _ => false)) false ["Merge"] 1
    (by decide) (by decide)

/-- Claim C3: when `max_message_length > 0`, the trimmed first line exceeds
it, and no allowed prefix applies, validation fails regardless of whether
the pattern would match. -/
theorem validate_length_limit (m : String) (p : String → Bool) (a : Bool)
    (pres : List String) (mx : Int) (hmx : 0 < mx)
    (hlen : ((pyStrip (firstLine m).data).length : Int) > mx)
    (hpre : pres.any (fun pre => startsWith pre m) = false) :
    validate_commit_message m (some p) a pres mx = (false, []) := by
  have hne : m.data ≠ [] := by
    intro h0
    simp [firstLine, h0, pyStrip] at hlen
    omega
  have hmx' : mx ≠ 0 := by omega
  simp [validate_commit_message, hne, hpre, hmx', hlen]

/-- Witness for `validate_length_limit`: a 10-character subject with limit
5 fails even though the pattern accepts everything. -/
theorem validate_length_limit_witness :
    validate_commit_message "aaaaaaaaaa" (some (fun _ => true)) true [] 5 = (false, []) :=
  validate_length_limit "aaaaaaaaaa" (fun _ => true) true [] 5 (by decide) (by decide) rfl

/-- The first branch of the validator: an empty message short-circuits to
`(allow_abort, [])`. -/
theorem validate_commit_message_empty (p : Option (String → Bool)) (a : Bool)
    (pres : List String) (mx : Int) :
    validate_commit_message "" p a pres mx = (a, []) := by
  simp [validate_commit_message]

/-- Claim C4: the empty message yields `(allow_abort, [])` for every
pattern, allowed_prefixes and max_message_length. -/
theorem validate_empty_message (p : Option (String → Bool)) (a : Bool)
    (pres : List String) (mx : Int) :
    validate_commit_message "" p a pres mx = (a, []) :=
  validate_commit_message_empty p a pres mx

end Commitizen

namespace Commitizen

/-! ### Lemmas about the comment filter -/

/-- Unfolding equation for `splitOnNewline` on a cons, given the value of
the recursive call. -/
theorem splitOnNewline_cons_eq (c : Char) (rest x : List Char) (xs : List (List Char))
    (h : splitOnNewline rest = x :: xs) :
    splitOnNewline (c :: rest) =
      if c = '\n' then [] :: x :: xs else (c :: x) :: xs := by
  simp only [splitOnNewline, h]

/-- `splitOnNewline` never returns the empty list of lines. -/
theorem splitOnNewline_ne_nil (s : List Char) : splitOnNewline s ≠ [] := by
  induction s with
  | nil => simp [splitOnNewline]
  | cons c rest ih =>
    cases h : splitOnNewline rest with
    | nil => exact absurd h ih
    | cons x xs =>
      rw [splitOnNewline_cons_eq c rest x xs h]
      split <;> simp

/-- No line produced by `splitOnNewline` contains a newline character. -/
theorem splitOnNewline_no_newline :
    ∀ (s : List Char) (l : List Char), l ∈ splitOnNewline s → '\n' ∉ l := by
  intro s
  induction s with
  | nil =>
    intro l hl
    simp [splitOnNewline] at hl
    simp [hl]
  | cons c rest ih =>
    intro l hl
    cases h : splitOnNewline rest with
    | nil => exact absurd h (splitOnNewline_ne_nil rest)
    | cons x xs =>
      rw [splitOnNewline_cons_eq c rest x xs h] at hl
      have ihx : ∀ y ∈ x :: xs, '\n' ∉ y := fun y hy => ih y (by rw [h]; exact hy)
      by_cases hc : c = '\n'
      · rw [if_pos hc] at hl
        rcases List.mem_cons.mp hl with h1 | h1
        · simp [h1]
        · exact ihx l h1
      · rw [if_neg hc] at hl
        rcases List.mem_cons.mp hl with h1 | h1
        · subst h1
          intro hmem
          rcases List.mem_cons.mp hmem with h2 | h2
          · exact hc h2.symm
          · exact ihx x (List.mem_cons_self x xs) h2
        · exact ihx l (List.mem_cons_of_mem x h1)

/-- Splitting a newline-free line yields just that line. -/
theorem splitOnNewline_of_no_newline (l : List Char) (h : '\n' ∉ l) :
    splitOnNewline l = [l] := by
  induction l with
  | nil => rfl
  | cons c rest ih =>
    have hc : c ≠ '\n' := fun e => h (e ▸ List.mem_cons_self c rest)
    have hr : '\n' ∉ rest := fun m => h (List.mem_cons_of_mem c m)
    simp only [splitOnNewline, ih hr]
    simp [hc]

/-- Splitting `l ++ '\n' :: rest` with `l` newline-free peels off `l`. -/
theorem splitOnNewline_append_newline (l rest : List Char) (h : '\n' ∉ l) :
    splitOnNewline (l ++ '\n' :: rest) = l :: splitOnNewline rest := by
  induction l with
  | nil =>
    simp only [List.nil_append, splitOnNewline]
    cases hr : splitOnNewline rest with
    | nil => exact absurd hr (splitOnNewline_ne_nil rest)
    | cons x xs => simp
  | cons c t ih =>
    have hc : c ≠ '\n' := fun e => h (e ▸ List.mem_cons_self c t)
    have ht : '\n' ∉ t := fun m => h (List.mem_cons_of_mem c m)
    rw [List.cons_append,
      splitOnNewline_cons_eq c (t ++ '\n' :: rest) t (splitOnNewline rest) (ih ht)]
    simp [hc]

/-- `splitOnNewline` is a left inverse of `joinNewline` on non-empty lists
of newline-free lines. -/
theorem splitOnNewline_joinNewline :
    ∀ ls : List (List Char), ls ≠ [] → (∀ l ∈ ls, '\n' ∉ l) →
      splitOnNewline (joinNewline ls) = ls
  | [], h, _ => absurd rfl h
  | [l], _, hn => by
      simp only [joinNewline]
      exact splitOnNewline_of_no_newline l (hn l (by simp))
  | l :: l' :: ls, _, hn => by
      simp only [joinNewline]
      rw [splitOnNewline_append_newline l _ (hn l (by simp))]
      rw [splitOnNewline_joinNewline (l' :: ls) (by simp)
        (fun x hx => hn x (List.mem_cons_of_mem l hx))]

/-- The break-loop of `_filter_comments` is takeWhile-then-filter. -/
theorem filterLines_eq_filter_takeWhile (ls : List (List Char)) :
    filterLines ls =
      (ls.takeWhile (fun l => ¬containsSubstr sentinel l)).filter
        (fun l => l.head? ≠ some '#') := by
  induction ls with
  | nil => rfl
  | cons l ls ih =>
    by_cases hs : containsSubstr sentinel l
    · simp [filterLines, List.takeWhile, hs]
    · by_cases hh : l.head? = some '#'
      · simp [filterLines, List.takeWhile, hs, hh, ih]
      · simp [filterLines, List.takeWhile, hs, hh, ih]

/-- Every kept line was an input line, is sentinel-free and not a comment. -/
theorem filterLines_mem (ls : List (List Char)) (l : List Char)
    (h : l ∈ filterLines ls) :
    l ∈ ls ∧ containsSubstr sentinel l = false ∧ l.head? ≠ some '#' := by
  induction ls with
  | nil => simp [filterLines] at h
  | cons x xs ih =>
    simp only [filterLines] at h
    by_cases hs : containsSubstr sentinel x
    · rw [if_pos hs] at h
      simp at h
    · rw [if_neg hs] at h
      by_cases hh : x.head? = some '#'
      · rw [if_pos hh] at h
        obtain ⟨h1, h2, h3⟩ := ih h
        exact ⟨List.mem_cons_of_mem x h1, h2, h3⟩
      · rw [if_neg hh] at h
        rcases List.mem_cons.mp h with h1 | h1
        · subst h1
          exact ⟨List.mem_cons_self _ _, by simpa using hs, hh⟩
        · obtain ⟨h1', h2, h3⟩ := ih h1
          exact ⟨List.mem_cons_of_mem x h1', h2, h3⟩

/-- On sentinel-free, comment-free lines the filter keeps everything. -/
theorem filterLines_of_clean (ls : List (List Char))
    (h : ∀ l ∈ ls, containsSubstr sentinel l = false ∧ l.head? ≠ some '#') :
    filterLines ls = ls := by
  induction ls with
  | nil => rfl
  | cons x xs ih =>
    obtain ⟨h1, h2⟩ := h x (List.mem_cons_self x xs)
    simp only [filterLines, h1, h2]
    simp [ih (fun l hl => h l (List.mem_cons_of_mem x hl))]

end Commitizen

namespace Commitizen

/-- Claim C5 (corrected), counterexample: the source breaks at the first
line CONTAINING the sentinel as a substring, not at a line whose content
is EXACTLY the sentinel.  On a line with leading text before the sentinel
the code truncates, while the claimed exact-match transform keeps it. -/
theorem filter_comments_exact_sentinel_cex :
    filter_comments "a\nxx# ------------------------ >8 ------------------------\nb" = "a" ∧
    filterCommentsClaimExact
        "a\nxx# ------------------------ >8 ------------------------\nb" =
      "a\nxx# ------------------------ >8 ------------------------\nb" ∧
    filter_comments "a\nxx# ------------------------ >8 ------------------------\nb" ≠
      filterCommentsClaimExact
        "a\nxx# ------------------------ >8 ------------------------\nb" :=
  ⟨by decide, by decide, by decide⟩

/-- Claim C5 (amended): the comment filter splits on newline, stops at the
first line CONTAINING the verbose-diff sentinel (discarding it and all
later lines), discards earlier lines exactly when they start with `#`,
and rejoins with newline; on the given example it returns
`"feat: x\nbody"`. -/
theorem filter_comments_spec :
    (∀ msg : String, filter_comments msg = filterCommentsClaimContains msg) ∧
    filter_comments
        "feat: x\n# comment\nbody\n# ------------------------ >8 ------------------------\ndiff --git a b" =
      "feat: x\nbody" := by
  constructor
  · intro msg
    unfold filter_comments filterCommentsClaimContains
    rw [filterLines_eq_filter_takeWhile]
  · decide

/-- Claim C6: the comment filter is idempotent. -/
theorem filter_comments_idempotent (msg : String) :
    filter_comments (filter_comments msg) = filter_comments msg := by
  have hmem := fun l hl => filterLines_mem (splitOnNewline msg.data) l hl
  by_cases h0 : filterLines (splitOnNewline msg.data) = []
  · unfold filter_comments
    rw [h0]
    decide
  · unfold filter_comments
    show String.mk (joinNewline (filterLines (splitOnNewline
        (joinNewline (filterLines (splitOnNewline msg.data)))))) = _
    rw [splitOnNewline_joinNewline _ h0
      (fun l hl => splitOnNewline_no_newline _ l (hmem l hl).1)]
    rw [filterLines_of_clean _ (fun l hl => ⟨(hmem l hl).2.1, (hmem l hl).2.2⟩)]

end Commitizen

namespace Commitizen

/-- Claim C7: construction fails with `InvalidCommandArgumentError` when
more than one of commit-msg-file / message / rev-range is provided, and
when none is provided on an interactive terminal; with none provided and
non-interactive input, standard input is read as the inline message. -/
theorem valid_command_argument_spec (f m r : Option String) (t : Bool) (s : String) :
    (2 ≤ numProvided f m r →
      valid_command_argument f m r t s =
        Except.error (CheckError.invalidCommandArgument argErrMsg)) ∧
    (numProvided f m r = 0 → t = true →
      valid_command_argument f m r t s =
        Except.error (CheckError.invalidCommandArgument argErrMsg)) ∧
    (numProvided f m r = 0 → t = false →
      valid_command_argument f m r t s = Except.ok (some s)) := by
  refine ⟨fun h2 => ?_, fun h0 ht => ?_, fun h0 ht => ?_⟩
  · have hne0 : ¬(numProvided f m r = 0 ∧ t = false) := by
      rintro ⟨h, _⟩; omega
    have hne1 : numProvided f m r ≠ 1 := by omega
    simp only [valid_command_argument, if_neg hne0, if_pos hne1]
  · have hne0 : ¬(numProvided f m r = 0 ∧ t = false) := by
      rintro ⟨_, h⟩; rw [ht] at h; exact absurd h (by simp)
    have hne1 : numProvided f m r ≠ 1 := by omega
    simp only [valid_command_argument, if_neg hne0, if_pos hne1]
  · simp only [valid_command_argument]
    rw [if_pos ⟨h0, ht⟩]

/-- Witness for `valid_command_argument_spec`: an empty string counts as
provided (two sources → error), zero sources on a tty is an error, and
zero sources piped reads stdin. -/
theorem valid_command_argument_spec_witness :
    valid_command_argument (some "") (some "feat: x") none true "" =
      Except.error (CheckError.invalidCommandArgument argErrMsg) ∧
    valid_command_argument none none none true "" =
      Except.error (CheckError.invalidCommandArgument argErrMsg) ∧
    valid_command_argument none none none false "feat: piped" =
      Except.ok (some "feat: piped") :=
  ⟨(valid_command_argument_spec (some "") (some "feat: x") none true "").1 (by decide),
   (valid_command_argument_spec none none none true "").2.1 (by decide) rfl,
   (valid_command_argument_spec none none none false "feat: piped").2.2 (by decide) rfl⟩

/-- Claim C8: an empty resolved commit sequence makes the check engine
fail with `NoCommitsFoundError` naming the requested revision range, for
every pattern and validation configuration (no validation is consulted). -/
theorem check_call_no_commits (rv : Option String) (p : Option (String → Bool))
    (a : Bool) (pres : List String) (mx : Int) (prepr : String) :
    check_call rv [] p a pres mx prepr =
      Except.error (CheckError.noCommitsFound
        ("No commit found with range: '" ++ pyShow rv ++ "'")) := by
  simp [check_call]

end Commitizen

namespace Commitizen

/-! ### Theorems about the check engine's aggregation and report -/

/-- The failing commits in original order, paired with their (always
empty) reason lists — the aggregation `Check.__call__` builds. -/
def failedCommits (commits : List GitCommit) (p : Option (String → Bool))
    (a : Bool) (pres : List String) (mx : Int) : List (GitCommit × List String) :=
  (commits.filter
    (fun c => !(validate_commit_message c.message p a pres mx).1)).map
    (fun c => (c, []))

/-- The base validator never populates the reasons list. -/
theorem validate_reasons_nil (m : String) (p : Option (String → Bool)) (a : Bool)
    (pres : List String) (mx : Int) :
    (validate_commit_message m p a pres mx).2 = [] := by
  unfold validate_commit_message
  split
  · rfl
  · cases p with
    | none => rfl
    | some q =>
      dsimp only
      split
      · rfl
      · split
        · split
          · rfl
          · rfl
        · rfl

/-- The filterMap in `Check.__call__` is exactly `failedCommits`. -/
theorem check_ill_eq_failedCommits (commits : List GitCommit)
    (p : Option (String → Bool)) (a : Bool) (pres : List String) (mx : Int) :
    (commits.filterMap (fun commit =>
      let check := validate_commit_message commit.message p a pres mx
      if check.1 then none else some (commit, check.2))) =
      failedCommits commits p a pres mx := by
  have hfun : (fun commit : GitCommit =>
      let check := validate_commit_message commit.message p a pres mx
      if check.1 then none else some (commit, check.2)) =
      (fun commit : GitCommit =>
        if (validate_commit_message commit.message p a pres mx).1 then none
        else some (commit, ([] : List String))) := by
    funext commit
    dsimp only
    by_cases h : (validate_commit_message commit.message p a pres mx).1
    · simp [h]
    · simp [h, validate_reasons_nil]
  rw [hfun]
  induction commits with
  | nil => rfl
  | cons c cs ih =>
    simp only [List.filterMap_cons, failedCommits, List.filter_cons] at ih ⊢
    by_cases h : (validate_commit_message c.message p a pres mx).1
    · simp [h, ih]
    · have h' : (validate_commit_message c.message p a pres mx).1 = false := by
        simpa using h
      simp [h', ih]

/-- Every element of a line list is an infix of its newline join. -/
theorem mem_joinNewline_infix :
    ∀ (ls : List (List Char)) (l : List Char), l ∈ ls → l <:+: joinNewline ls
  | [], l, h => absurd h (List.not_mem_nil l)
  | [x], l, h => by
      simp only [List.mem_singleton] at h
      subst h
      simp [joinNewline]
  | x :: y :: ls, l, h => by
      rcases List.mem_cons.mp h with h1 | h1
      · subst h1
        exact ⟨[], '\n' :: joinNewline (y :: ls), by simp [joinNewline]⟩
      · obtain ⟨s, t, hst⟩ := mem_joinNewline_infix (y :: ls) l h1
        refine ⟨x ++ '\n' :: s, t, ?_⟩
        rw [show joinNewline (x :: y :: ls) = x ++ '\n' :: joinNewline (y :: ls)
          from rfl, ← hst]
        simp

/-- The report contains one `commit "rev": "message"` line for every
recorded failure. -/
theorem commitEntry_infix_report (ill : List (GitCommit × List String))
    (prepr : String) (c : GitCommit) (rs : List String) (hmem : (c, rs) ∈ ill) :
    (commitEntry c).data <:+: (format_exception_message ill prepr).data := by
  have h1 : (commitEntry c).data ∈ ill.map (fun p => (commitEntry p.1).data) :=
    List.mem_map.mpr ⟨(c, rs), hmem, rfl⟩
  obtain ⟨s, t, hst⟩ := mem_joinNewline_infix _ _ h1
  refine ⟨"commit validation: failed!\nplease enter a commit message in the commitizen format.\n".data ++ s,
    t ++ "\npattern: ".data ++ prepr.data, ?_⟩
  show _ = "commit validation: failed!\nplease enter a commit message in the commitizen format.\n".data
    ++ joinNewline (ill.map (fun p => (commitEntry p.1).data))
    ++ "\npattern: ".data ++ prepr.data
  rw [← hst]
  simp

/-- A commit's revision id is an infix of its report line. -/
theorem rev_infix_commitEntry (c : GitCommit) :
    c.rev.data <:+: (commitEntry c).data := by
  refine ⟨"commit \"".data, ("\": \"" ++ c.message ++ "\"").data, ?_⟩
  simp [commitEntry, String.data_append, List.append_assoc]

/-- A commit's raw message is an infix of its report line. -/
theorem message_infix_commitEntry (c : GitCommit) :
    c.message.data <:+: (commitEntry c).data := by
  refine ⟨("commit \"" ++ c.rev ++ "\": \"").data, "\"".data, ?_⟩
  simp [commitEntry, String.data_append, List.append_assoc]

end Commitizen

namespace Commitizen

/-- Characterization of `check_call` on a non-empty commit sequence:
success when no commit fails, otherwise the aggregate error built from
the failures in original order. -/
theorem check_call_nonempty (rv : Option String) (commits : List GitCommit)
    (p : Option (String → Bool)) (a : Bool) (pres : List String) (mx : Int)
    (prepr : String) (hne : commits ≠ []) :
    check_call rv commits p a pres mx prepr =
      if failedCommits commits p a pres mx = [] then Except.ok ()
      else Except.error (CheckError.invalidCommitMessage
        (format_exception_message (failedCommits commits p a pres mx) prepr)) := by
  simp only [check_call, if_neg hne, check_ill_eq_failedCommits]
  by_cases h : failedCommits commits p a pres mx = []
  · simp [h]
  · simp [h]

/-- Claim C9: on a non-empty sequence every commit is validated; if all
pass the engine succeeds, otherwise it fails with
`InvalidCommitMessageError` carrying the report over all failing commits
in original order, and that report contains each failing commit's
revision identifier and raw message text. -/
theorem check_call_aggregation (rv : Option String) (commits : List GitCommit)
    (p : Option (String → Bool)) (a : Bool) (pres : List String) (mx : Int)
    (prepr : String) (hne : commits ≠ []) :
    ((∀ c ∈ commits, (validate_commit_message c.message p a pres mx).1 = true) →
      check_call rv commits p a pres mx prepr = Except.ok ()) ∧
    ((∃ c ∈ commits, (validate_commit_message c.message p a pres mx).1 = false) →
      check_call rv commits p a pres mx prepr =
        Except.error (CheckError.invalidCommitMessage
          (format_exception_message (failedCommits commits p a pres mx) prepr)) ∧
      (∀ c ∈ commits, (validate_commit_message c.message p a pres mx).1 = false →
        c.rev.data <:+:
          (format_exception_message (failedCommits commits p a pres mx) prepr).data ∧
        c.message.data <:+:
          (format_exception_message (failedCommits commits p a pres mx) prepr).data)) := by
  constructor
  · intro hall
    have hfail : failedCommits commits p a pres mx = [] := by
      unfold failedCommits
      rw [List.filter_eq_nil_iff.mpr (fun c hc => by simp [hall c hc])]
      rfl
    rw [check_call_nonempty rv commits p a pres mx prepr hne, if_pos hfail]
  · rintro ⟨c0, hc0, hfail0⟩
    have hmem0 : (c0, ([] : List String)) ∈ failedCommits commits p a pres mx := by
      unfold failedCommits
      exact List.mem_map.mpr ⟨c0, List.mem_filter.mpr ⟨hc0, by simp [hfail0]⟩, rfl⟩
    have hnenil : failedCommits commits p a pres mx ≠ [] := fun h =>
      List.not_mem_nil _ (h ▸ hmem0)
    refine ⟨?_, ?_⟩
    · rw [check_call_nonempty rv commits p a pres mx prepr hne, if_neg hnenil]
    · intro c hc hcf
      have hm : (c, ([] : List String)) ∈ failedCommits commits p a pres mx := by
        unfold failedCommits
        exact List.mem_map.mpr ⟨c, List.mem_filter.mpr ⟨hc, by simp [hcf]⟩, rfl⟩
      have he := commitEntry_infix_report (failedCommits commits p a pres mx) prepr c [] hm
      exact ⟨List.IsInfix.trans (rev_infix_commitEntry c) he,
        List.IsInfix.trans (message_infix_commitEntry c) he⟩

/-- Witness for `check_call_aggregation`: one conforming and one bad
commit yield the aggregate error; a single conforming commit succeeds. -/
theorem check_call_aggregation_witness :
    check_call (some "r") [⟨"ok1", "t1", "feat: add x"⟩, ⟨"bad1", "t2", "bad message"⟩]
        (some (startsWith "feat")) false [] 0 "P" =
      Except.error (CheckError.invalidCommitMessage
        (format_exception_message
          (failedCommits [⟨"ok1", "t1", "feat: add x"⟩, ⟨"bad1", "t2", "bad message"⟩]
            (some (startsWith "feat")) false [] 0) "P")) ∧
    check_call (some "r") [⟨"ok1", "t1", "feat: add x"⟩] (some (startsWith "feat"))
        false [] 0 "P" = Except.ok () :=
  ⟨((check_call_aggregation (some "r")
      [⟨"ok1", "t1", "feat: add x"⟩, ⟨"bad1", "t2", "bad message"⟩]
      (some (startsWith "feat")) false [] 0 "P" (by simp)).2
      ⟨⟨"bad1", "t2", "bad message"⟩, by simp, by decide⟩).1,
   (check_call_aggregation (some "r") [⟨"ok1", "t1", "feat: add x"⟩]
      (some (startsWith "feat")) false [] 0 "P" (by simp)).1 (by decide)⟩

end Commitizen

namespace Commitizen

/-- A message whose lines all start with `#` filters to nothing. -/
theorem filterLines_all_comments (ls : List (List Char))
    (h : ∀ l ∈ ls, l.head? = some '#') : filterLines ls = [] := by
  induction ls with
  | nil => rfl
  | cons x xs ih =>
    simp only [filterLines]
    by_cases hs : containsSubstr sentinel x
    · rw [if_pos hs]
    · rw [if_neg hs, if_pos (h x (List.mem_cons_self x xs))]
      exact ih (fun l hl => h l (List.mem_cons_of_mem x hl))

/-- Filtering a message made only of comment lines yields the empty string. -/
theorem filter_comments_all_comments (m : String)
    (h : ∀ l ∈ splitOnNewline m.data, l.head? = some '#') :
    filter_comments m = "" := by
  unfold filter_comments
  rw [filterLines_all_comments _ h]
  rfl

/-- Claim C10: file and inline modes always resolve to exactly one
synthetic record with empty revision and title (even if filtering empties
the message), so `NoCommitsFoundError` is unreachable in those modes, and
an all-comment inline message is validated as the empty message, passing
or failing with `allow_abort`. -/
theorem get_commits_synthetic (fpath fcontent m : String) (cm : Option String)
    (glog : List GitCommit) (rv : Option String) (p : Option (String → Bool))
    (a : Bool) (pres : List String) (mx : Int) (prepr : String) :
    get_commits (some fpath) fcontent cm glog = [⟨"", "", filter_comments fcontent⟩] ∧
    get_commits none fcontent (some m) glog = [⟨"", "", filter_comments m⟩] ∧
    (∀ e, check_call rv (get_commits (some fpath) fcontent cm glog) p a pres mx prepr ≠
      Except.error (CheckError.noCommitsFound e)) ∧
    (∀ e, check_call rv (get_commits none fcontent (some m) glog) p a pres mx prepr ≠
      Except.error (CheckError.noCommitsFound e)) ∧
    ((∀ l ∈ splitOnNewline m.data, l.head? = some '#') →
      check_call rv (get_commits none fcontent (some m) glog) p a pres mx prepr =
        if a then Except.ok ()
        else Except.error (CheckError.invalidCommitMessage
          (format_exception_message [(⟨"", "", ""⟩, [])] prepr))) := by
  refine ⟨rfl, rfl, ?_, ?_, ?_⟩
  · intro e
    rw [show get_commits (some fpath) fcontent cm glog =
      [⟨"", "", filter_comments fcontent⟩] from rfl]
    rw [check_call_nonempty rv _ p a pres mx prepr (by simp)]
    split <;> simp
  · intro e
    rw [show get_commits none fcontent (some m) glog =
      [⟨"", "", filter_comments m⟩] from rfl]
    rw [check_call_nonempty rv _ p a pres mx prepr (by simp)]
    split <;> simp
  · intro hall
    rw [show get_commits none fcontent (some m) glog =
      [⟨"", "", filter_comments m⟩] from rfl]
    rw [filter_comments_all_comments m hall]
    rw [check_call_nonempty rv _ p a pres mx prepr (by simp)]
    have hval : (validate_commit_message "" p a pres mx).1 = a := by
      rw [validate_commit_message_empty p a pres mx]
    cases a with
    | true =>
      have hfc : failedCommits [⟨"", "", ""⟩] p true pres mx = [] := by
        unfold failedCommits
        simp [List.filter_cons, hval]
      simp [hfc]
    | false =>
      have hfc : failedCommits [⟨"", "", ""⟩] p false pres mx = [(⟨"", "", ""⟩, [])] := by
        unfold failedCommits
        simp [List.filter_cons, hval]
      simp [hfc]

/-- Witness for `get_commits_synthetic`: the all-comment message
`"#a\n#b"` passes with `allow_abort = true` and fails without it. -/
theorem get_commits_synthetic_witness :
    check_call none (get_commits none "" (some "#a\n#b") []) none true [] 0 "P" =
      Except.ok () ∧
    check_call none (get_commits none "" (some "#a\n#b") []) none false [] 0 "P" =
      Except.error (CheckError.invalidCommitMessage
        (format_exception_message [(⟨"", "", ""⟩, [])] "P")) :=
  ⟨by
    have h := (get_commits_synthetic "" "" "#a\n#b" none [] none none true [] 0 "P").2.2.2.2
      (by decide)
    simpa using h,
   by
    have h := (get_commits_synthetic "" "" "#a\n#b" none [] none none false [] 0 "P").2.2.2.2
      (by decide)
    simpa using h⟩

end Commitizen
